import Mathlib

/-!
Shallow embedding of the stock-physics core (stock_physics.py) of the
synesthetic-stock-radar repository.

Scalars are modelled by the rationals. An entity row of the pandas
DataFrame becomes a structure with the input metric columns and the
derived columns; a DataFrame becomes a list of entities, and the
elementwise pandas mask operations become list maps, so every collection
operation keeps the order of the rows. The base-10 logarithm used by
get_bubble_size is modelled by an abstract value function together with
the domain guard of math.log10: calling it on a non-positive argument is
a math domain error, rendered as Option.none.
-/

set_option autoImplicit false

namespace StockPhysics

/-- One row of the stock DataFrame: input metric columns first, then the
derived visual and kinematic columns added by the engine. -/
structure Entity where
  ticker : String
  change_pct : ℚ
  rule_of_40 : ℚ
  market_cap : ℚ
  volume : ℚ
  debt_to_equity : ℚ
  volatility : ℚ
  revenue_growth : ℚ
  month_change : ℚ
  operating_margin : ℚ
  color : String
  size : ℚ
  glow : ℚ
  opacity : ℚ
  pulse_speed : ℚ
  elasticity : ℚ
  vx : ℚ
  vy : ℚ
  x : ℚ
  y : ℚ
  deriving DecidableEq, Inhabited

/-- The bounds tuple (x_min, x_max, y_min, y_max) of update_positions. -/
structure Bounds where
  x_min : ℚ
  x_max : ℚ
  y_min : ℚ
  y_max : ℚ
  deriving DecidableEq, Inhabited

/-- normalize(value, min_val, max_val, target_min, target_max): affine
rescale with the degenerate guard max_val == min_val returning target_min. -/
def normalize (value min_val max_val target_min target_max : ℚ) : ℚ :=
  if max_val = min_val then target_min
  else target_min + (value - min_val) / (max_val - min_val) * (target_max - target_min)

/-- get_glow_intensity: piecewise-linear glow from the Rule-of-40 score. -/
def get_glow_intensity (rule_of_40 : ℚ) : ℚ :=
  if rule_of_40 ≥ 80 then 1
  else if rule_of_40 ≥ 40 then 5/10 + (rule_of_40 - 40) / 80
  else if rule_of_40 ≥ 0 then 2/10 + (rule_of_40 / 40) * (3/10)
  else 1/10

/-- get_opacity: piecewise opacity from the debt-to-equity ratio. -/
def get_opacity (debt_to_equity : ℚ) : ℚ :=
  if debt_to_equity ≤ 0 then 1
  else if debt_to_equity ≤ 50 then 1
  else if debt_to_equity ≤ 150 then 9/10 - (debt_to_equity - 50) / 100 * (3/10)
  else max (4/10) (6/10 - (debt_to_equity - 150) / 200 * (2/10))

/-- Python min over a list, as used on the metric columns; the value on
the empty list is never consulted by the guarded call sites. -/
def seriesMin : List ℚ → ℚ
  | [] => 0
  | v :: vs => vs.foldl min v

/-- Python max over a list; the value on the empty list is never
consulted by the guarded call sites. -/
def seriesMax : List ℚ → ℚ
  | [] => 0
  | v :: vs => vs.foldl max v

/-- math.log10 modelled with its domain guard: a non-positive argument
is a math domain error (none); on positive arguments the value is given
by the abstract function L. -/
def mlog10 (L : ℚ → ℚ) (v : ℚ) : Option ℚ :=
  if 0 < v then some (L v) else none

/-- get_bubble_size: log-scale size mapped into the range 10 to 60; a
non-positive market cap short-circuits to the fixed size 5 before any
logarithm is taken. A math domain error anywhere is none. -/
def get_bubble_size (L : ℚ → ℚ) (market_cap : ℚ) (all_market_caps : List ℚ) : Option ℚ :=
  if market_cap ≤ 0 then some 5
  else
    match mlog10 L (market_cap + 1) with
    | none => none
    | some log_cap =>
      match all_market_caps with
      | [] => some (normalize log_cap log_cap log_cap 10 60)
      | v :: vs =>
        match mlog10 L (seriesMin (v :: vs) + 1), mlog10 L (seriesMax (v :: vs) + 1) with
        | some min_log, some max_log => some (normalize log_cap min_log max_log 10 60)
        | _, _ => none

/-- get_pulse_speed: volume rescaled against the collection min and max
into the range 0.5 to 3.0, with the fallback 1.0 for an empty collection
or non-positive volume. -/
def get_pulse_speed (volume : ℚ) (all_volumes : List ℚ) : ℚ :=
  if all_volumes = [] ∨ volume ≤ 0 then 1
  else normalize volume (seriesMin all_volumes) (seriesMax all_volumes) (5/10) 3

/-- The weighting column selected by the mode of apply_attraction:
rule_of_40 for value, revenue_growth for growth, operating_margin for
profit, market_cap for size; none for an unrecognized mode. -/
def modeWeight (mode : String) : Option (Entity → ℚ) :=
  if mode = "value" then some (fun e => e.rule_of_40)
  else if mode = "growth" then some (fun e => e.revenue_growth)
  else if mode = "profit" then some (fun e => e.operating_margin)
  else if mode = "size" then some (fun e => e.market_cap)
  else none

/-- The selected weighting metric, defaulting to the zero column on an
unrecognized mode (the default is never consulted on recognized modes). -/
def theWeight (mode : String) : Entity → ℚ :=
  (modeWeight mode).getD (fun _ => 0)

/-- A mode string recognized by apply_attraction. -/
def recognized (mode : String) : Prop :=
  mode = "value" ∨ mode = "growth" ∨ mode = "profit" ∨ mode = "size"

instance (mode : String) : Decidable (recognized mode) := by
  unfold recognized; infer_instance

/-- The min-max normalization pass of apply_attraction:
(w - w.min()) / (w.max() - w.min() + 0.001), elementwise over the column. -/
def normWeights (df : List Entity) (w : Entity → ℚ) : List ℚ :=
  let ws := df.map w
  ws.map (fun v => (v - seriesMin ws) / (seriesMax ws - seriesMin ws + 1/1000))

/-- The rows paired with their normalized weights whose weight exceeds
0.7: the attractor set (high_value_mask) of apply_attraction. -/
def attractorPairs (df : List Entity) (w : Entity → ℚ) : List (Entity × ℚ) :=
  (df.zip (normWeights df w)).filter (fun p => 7/10 < p.2)

/-- The x coordinate of the weighted centroid of a set of rows paired
with their weights. -/
def centroidX (high : List (Entity × ℚ)) : ℚ :=
  (high.map (fun p => p.1.x * p.2)).sum / (high.map (fun p => p.2)).sum

/-- The y coordinate of the weighted centroid of a set of rows paired
with their weights. -/
def centroidY (high : List (Entity × ℚ)) : ℚ :=
  (high.map (fun p => p.1.y * p.2)).sum / (high.map (fun p => p.2)).sum

/-- The body of apply_attraction after the weighting column has been
selected: normalize the weights, form the attractor set, and when it is
non-empty pull every row toward the weighted centroid. -/
def attractionWith (df : List Entity) (w : Entity → ℚ) (strength : ℚ) : List Entity :=
  let ws := normWeights df w
  let pairs := df.zip ws
  let high := pairs.filter (fun p => 7/10 < p.2)
  if 0 < high.length then
    pairs.map (fun p =>
      { p.1 with
        vx := p.1.vx + (centroidX high - p.1.x) * strength * (1 - p.2)
        vy := p.1.vy + (centroidY high - p.1.y) * strength * (1 - p.2) })
  else df

/-- apply_attraction(df, mode, strength): select the weighting column by
mode (an unrecognized mode returns the input unchanged) and apply the
attraction body. -/
def apply_attraction (df : List Entity) (mode : String) (strength : ℚ) : List Entity :=
  match modeWeight mode with
  | some w => attractionWith df w strength
  | none => df

/-- One axis of the boundary pass of update_positions, in the order of
the source lines: the velocity line multiplies by the negated elasticity
under the below-minimum mask taken before the clamp, then the position is
clamped; the same is then done against the maximum on the clamped
position. The argument p is the position already advanced by v * dt. -/
def axisStep (lo hi el p v : ℚ) : ℚ × ℚ :=
  let v1 := if p < lo then v * (-el) else v
  let p1 := if p < lo then lo else p
  let v2 := if p1 > hi then v1 * (-el) else v1
  let p2 := if p1 > hi then hi else p1
  (p2, v2)

/-- update_positions on one row: advance the position by velocity times
time_delta, run the boundary pass on each axis, then damp both velocity
components by 0.98. -/
def update_positions_e (b : Bounds) (time_delta : ℚ) (e : Entity) : Entity :=
  let xs := axisStep b.x_min b.x_max e.elasticity (e.x + e.vx * time_delta) e.vx
  let ys := axisStep b.y_min b.y_max e.elasticity (e.y + e.vy * time_delta) e.vy
  { e with x := xs.1, y := ys.1, vx := xs.2 * (98/100), vy := ys.2 * (98/100) }

/-- update_positions(df, time_delta, bounds): the row-wise integrator
tick; all pandas masks are elementwise, so the tick is a map. -/
def update_positions (df : List Entity) (time_delta : ℚ) (b : Bounds) : List Entity :=
  df.map (update_positions_e b time_delta)

/-- A row with its velocity columns blanked, for stating which columns
apply_attraction may change. -/
def eraseVel (e : Entity) : Entity :=
  { e with vx := 0, vy := 0 }

/-- The x axis bounce condition of one tick: the advanced position falls
below the minimum, or the position after the minimum clamp exceeds the
maximum. -/
def bouncedX (b : Bounds) (time_delta : ℚ) (e : Entity) : Prop :=
  e.x + e.vx * time_delta < b.x_min ∨
    b.x_max < (if e.x + e.vx * time_delta < b.x_min then b.x_min else e.x + e.vx * time_delta)

instance (b : Bounds) (dt : ℚ) (e : Entity) : Decidable (bouncedX b dt e) := by
  unfold bouncedX; infer_instance

/-- The y axis bounce condition of one tick. -/
def bouncedY (b : Bounds) (time_delta : ℚ) (e : Entity) : Prop :=
  e.y + e.vy * time_delta < b.y_min ∨
    b.y_max < (if e.y + e.vy * time_delta < b.y_min then b.y_min else e.y + e.vy * time_delta)

instance (b : Bounds) (dt : ℚ) (e : Entity) : Decidable (bouncedY b dt e) := by
  unfold bouncedY; infer_instance

/-- A concrete row with every column zeroed, used to build sample data. -/
def baseEntity : Entity :=
  { ticker := "T", change_pct := 0, rule_of_40 := 0, market_cap := 0, volume := 0,
    debt_to_equity := 0, volatility := 0, revenue_growth := 0, month_change := 0,
    operating_margin := 0, color := "", size := 0, glow := 0, opacity := 0,
    pulse_speed := 0, elasticity := 0, vx := 0, vy := 0, x := 0, y := 0 }

/-- Sample row with a low Rule-of-40 score. -/
def sampleA : Entity :=
  { baseEntity with ticker := "A", rule_of_40 := 0, x := 10, y := 0, vx := 1, vy := 2 }

/-- Sample row with a high Rule-of-40 score. -/
def sampleB : Entity :=
  { baseEntity with ticker := "B", rule_of_40 := 1, x := 50, y := 20 }

/-- Sample two-row collection whose attractor set under the value mode
is exactly the second row. -/
def sampleDF : List Entity := [sampleA, sampleB]

/-- A left fold of min is the start value or a list element. -/
lemma foldl_min_mem (xs : List ℚ) (x : ℚ) :
    xs.foldl min x = x ∨ xs.foldl min x ∈ xs := by
  induction xs generalizing x with
  | nil => exact Or.inl rfl
  | cons y ys ih =>
    simp only [List.foldl_cons]
    rcases ih (min x y) with h | h
    · rcases min_choice x y with hm | hm
      · exact Or.inl (h.trans hm)
      · refine Or.inr ?_
        rw [h, hm]
        exact List.mem_cons_self y ys
    · exact Or.inr (List.mem_cons_of_mem y h)

/-- A left fold of max is the start value or a list element. -/
lemma foldl_max_mem (xs : List ℚ) (x : ℚ) :
    xs.foldl max x = x ∨ xs.foldl max x ∈ xs := by
  induction xs generalizing x with
  | nil => exact Or.inl rfl
  | cons y ys ih =>
    simp only [List.foldl_cons]
    rcases ih (max x y) with h | h
    · rcases max_choice x y with hm | hm
      · exact Or.inl (h.trans hm)
      · refine Or.inr ?_
        rw [h, hm]
        exact List.mem_cons_self y ys
    · exact Or.inr (List.mem_cons_of_mem y h)

/-- A left fold of min is below its start value. -/
lemma foldl_min_le_init (xs : List ℚ) (x : ℚ) : xs.foldl min x ≤ x := by
  induction xs generalizing x with
  | nil => exact le_refl x
  | cons y ys ih => exact (ih (min x y)).trans (min_le_left x y)

/-- A left fold of min is below every list element. -/
lemma foldl_min_le_mem {a : ℚ} (xs : List ℚ) (x : ℚ) (h : a ∈ xs) :
    xs.foldl min x ≤ a := by
  induction xs generalizing x with
  | nil => cases h
  | cons y ys ih =>
    simp only [List.foldl_cons]
    rcases List.mem_cons.mp h with rfl | h
    · exact (foldl_min_le_init ys (min x a)).trans (min_le_right x a)
    · exact ih (min x y) h

/-- A left fold of max is above its start value. -/
lemma foldl_max_ge_init (xs : List ℚ) (x : ℚ) : x ≤ xs.foldl max x := by
  induction xs generalizing x with
  | nil => exact le_refl x
  | cons y ys ih => exact (le_max_left x y).trans (ih (max x y))

/-- A left fold of max is above every list element. -/
lemma foldl_max_ge_mem {a : ℚ} (xs : List ℚ) (x : ℚ) (h : a ∈ xs) :
    a ≤ xs.foldl max x := by
  induction xs generalizing x with
  | nil => cases h
  | cons y ys ih =>
    simp only [List.foldl_cons]
    rcases List.mem_cons.mp h with rfl | h
    · exact (le_max_right x a).trans (foldl_max_ge_init ys (max x a))
    · exact ih (max x y) h

/-- seriesMin of a list is below every element. -/
lemma seriesMin_le_mem {a : ℚ} {l : List ℚ} (h : a ∈ l) : seriesMin l ≤ a := by
  cases l with
  | nil => cases h
  | cons v vs =>
    rcases List.mem_cons.mp h with rfl | h
    · exact foldl_min_le_init vs a
    · exact foldl_min_le_mem vs v h

/-- seriesMax of a list is above every element. -/
lemma seriesMax_ge_mem {a : ℚ} {l : List ℚ} (h : a ∈ l) : a ≤ seriesMax l := by
  cases l with
  | nil => cases h
  | cons v vs =>
    rcases List.mem_cons.mp h with rfl | h
    · exact foldl_max_ge_init vs a
    · exact foldl_max_ge_mem vs v h

/-- seriesMin of a non-empty list is an element. -/
lemma seriesMin_mem {l : List ℚ} (h : l ≠ []) : seriesMin l ∈ l := by
  cases l with
  | nil => exact absurd rfl h
  | cons v vs =>
    show vs.foldl min v ∈ v :: vs
    rcases foldl_min_mem vs v with h' | h'
    · rw [h']; exact List.mem_cons_self v vs
    · exact List.mem_cons_of_mem v h'

/-- seriesMax of a non-empty list is an element. -/
lemma seriesMax_mem {l : List ℚ} (h : l ≠ []) : seriesMax l ∈ l := by
  cases l with
  | nil => exact absurd rfl h
  | cons v vs =>
    show vs.foldl max v ∈ v :: vs
    rcases foldl_max_mem vs v with h' | h'
    · rw [h']; exact List.mem_cons_self v vs
    · exact List.mem_cons_of_mem v h'

/-- normWeights keeps the number of rows. -/
lemma normWeights_length (df : List Entity) (w : Entity → ℚ) :
    (normWeights df w).length = df.length := by
  simp [normWeights]

/-- The affine rescale lands in the target range when the value lies in
the source range. -/
lemma normalize_bounds {lo v hi tmin tmax : ℚ} (hlo : lo ≤ v) (hhi : v ≤ hi)
    (ht : tmin ≤ tmax) :
    tmin ≤ normalize v lo hi tmin tmax ∧ normalize v lo hi tmin tmax ≤ tmax := by
  unfold normalize
  by_cases hd : hi = lo
  · rw [if_pos hd]; exact ⟨le_refl tmin, ht⟩
  · rw [if_neg hd]
    have hlt : lo < hi := lt_of_le_of_ne (hlo.trans hhi) (Ne.symm hd)
    have hpos : 0 < hi - lo := by linarith
    have h0 : 0 ≤ (v - lo) / (hi - lo) := div_nonneg (by linarith) (le_of_lt hpos)
    have h1 : (v - lo) / (hi - lo) ≤ 1 := by
      rw [div_le_one hpos]; linarith
    constructor
    · nlinarith
    · nlinarith

/-- C3 counterexample: the opacity of a debt-to-equity of 300 is 0.45,
not the claimed floor value 0.4; the max keeps the linear branch because
0.6 - (300 - 150) / 200 * 0.2 = 0.45 is still above the floor. -/
theorem opacity_300_not_floor : get_opacity 300 = 45/100 ∧ ¬ get_opacity 300 = 4/10 := by
  constructor <;> norm_num [get_opacity]

/-- C3 amended: the stated opacity point values hold at 0, 50, 150 and
1000, while at 300 the value is 0.45; the 0.4 floor is first reached at a
debt-to-equity of 350. -/
theorem opacity_point_values :
    get_opacity 0 = 1 ∧ get_opacity 50 = 1 ∧ get_opacity 150 = 6/10 ∧
    get_opacity 300 = 45/100 ∧ get_opacity 350 = 4/10 ∧ get_opacity 1000 = 4/10 := by
  refine ⟨?_, ?_, ?_, ?_, ?_, ?_⟩ <;> norm_num [get_opacity]

/-- C8: the glow intensity is monotonically non-decreasing on
non-negative Rule-of-40 scores, and takes the stated point values at 0,
40, 80 and -1. -/
theorem glow_monotone_and_points :
    (∀ a b : ℚ, 0 ≤ a → a ≤ b → get_glow_intensity a ≤ get_glow_intensity b) ∧
    get_glow_intensity 0 = 2/10 ∧ get_glow_intensity 40 = 5/10 ∧
    get_glow_intensity 80 = 1 ∧ get_glow_intensity (-1) = 1/10 := by
  refine ⟨?_, by norm_num [get_glow_intensity], by norm_num [get_glow_intensity],
    by norm_num [get_glow_intensity], by norm_num [get_glow_intensity]⟩
  intro a b ha hab
  unfold get_glow_intensity
  split_ifs <;> linarith

/-- C8 witness: the monotone part of the glow claim applied at the
concrete pair 10, 50. -/
theorem glow_monotone_and_points_witness :
    get_glow_intensity 10 ≤ get_glow_intensity 50 :=
  glow_monotone_and_points.1 10 50 (by norm_num) (by norm_num)

/-- C9: the affine rescale sends the source minimum to the target
minimum and the source maximum to the target maximum whenever the source
endpoints differ, and the degenerate equal-endpoint case returns the
target minimum for every value. -/
theorem normalize_endpoint_values (lo hi tmin tmax : ℚ) :
    (lo ≠ hi →
      normalize lo lo hi tmin tmax = tmin ∧ normalize hi lo hi tmin tmax = tmax) ∧
    (∀ x v : ℚ, normalize x v v tmin tmax = tmin) := by
  constructor
  · intro h
    have hne : hi - lo ≠ 0 := sub_ne_zero.mpr (Ne.symm h)
    constructor
    · unfold normalize
      rw [if_neg (Ne.symm h)]
      simp
    · unfold normalize
      rw [if_neg (Ne.symm h), div_self hne]
      ring
  · intro x v
    unfold normalize
    rw [if_pos rfl]

/-- C9 witness: the endpoint values at the concrete source range 2 to 5
with target range 0 to 1, and the degenerate case at source bounds 3, 3. -/
theorem normalize_endpoint_values_witness :
    normalize 2 2 5 0 1 = 0 ∧ normalize 5 2 5 0 1 = 1 ∧ normalize 7 3 3 0 1 = 0 :=
  ⟨((normalize_endpoint_values 2 5 0 1).1 (by norm_num)).1,
   ((normalize_endpoint_values 2 5 0 1).1 (by norm_num)).2,
   (normalize_endpoint_values 2 5 0 1).2 7 3⟩

/-- The clamped position of one axis pass lies between the two bounds
whenever the bounds are ordered. -/
lemma axisStep_fst_bounds {lo hi el p v : ℚ} (h : lo ≤ hi) :
    lo ≤ (axisStep lo hi el p v).1 ∧ (axisStep lo hi el p v).1 ≤ hi := by
  simp only [axisStep]
  split_ifs <;> constructor <;> linarith

/-- The velocity leaving one axis pass is no larger in magnitude than the
velocity entering it, for an elasticity between 0 and 1. -/
lemma axisStep_snd_abs {lo hi el p v : ℚ} (h0 : 0 ≤ el) (h1 : el ≤ 1) :
    |(axisStep lo hi el p v).2| ≤ |v| := by
  have key : ∀ u : ℚ, |u * (-el)| ≤ |u| := by
    intro u
    rw [abs_mul, abs_neg, abs_of_nonneg h0]
    nlinarith [abs_nonneg u]
  simp only [axisStep]
  split_ifs
  · exact (key _).trans (key v)
  · exact key v
  · exact key v
  · exact le_refl _

/-- The damped x velocity of one full tick is no larger in magnitude
than the incoming x velocity, for an elasticity between 0 and 1. -/
lemma update_e_vx_abs (b : Bounds) (dt : ℚ) (e : Entity)
    (h0 : 0 ≤ e.elasticity) (h1 : e.elasticity ≤ 1) :
    |(update_positions_e b dt e).vx| ≤ |e.vx| := by
  show |(axisStep b.x_min b.x_max e.elasticity (e.x + e.vx * dt) e.vx).2 * (98/100)| ≤ |e.vx|
  rw [abs_mul]
  have h := @axisStep_snd_abs b.x_min b.x_max e.elasticity (e.x + e.vx * dt) e.vx h0 h1
  have h98 : |(98 : ℚ)/100| = 98/100 := abs_of_nonneg (by norm_num)
  rw [h98]
  nlinarith [abs_nonneg (axisStep b.x_min b.x_max e.elasticity (e.x + e.vx * dt) e.vx).2,
    abs_nonneg e.vx]

/-- The damped y velocity of one full tick is no larger in magnitude
than the incoming y velocity, for an elasticity between 0 and 1. -/
lemma update_e_vy_abs (b : Bounds) (dt : ℚ) (e : Entity)
    (h0 : 0 ≤ e.elasticity) (h1 : e.elasticity ≤ 1) :
    |(update_positions_e b dt e).vy| ≤ |e.vy| := by
  show |(axisStep b.y_min b.y_max e.elasticity (e.y + e.vy * dt) e.vy).2 * (98/100)| ≤ |e.vy|
  rw [abs_mul]
  have h := @axisStep_snd_abs b.y_min b.y_max e.elasticity (e.y + e.vy * dt) e.vy h0 h1
  have h98 : |(98 : ℚ)/100| = 98/100 := abs_of_nonneg (by norm_num)
  rw [h98]
  nlinarith [abs_nonneg (axisStep b.y_min b.y_max e.elasticity (e.y + e.vy * dt) e.vy).2,
    abs_nonneg e.vy]

/-- C2: after one integrator tick every position lies inside the bounds
rectangle, whatever the positions and velocities were before the tick. -/
theorem update_positions_in_bounds (df : List Entity) (dt : ℚ) (b : Bounds)
    (hx : b.x_min < b.x_max) (hy : b.y_min < b.y_max) :
    ∀ e ∈ update_positions df dt b,
      b.x_min ≤ e.x ∧ e.x ≤ b.x_max ∧ b.y_min ≤ e.y ∧ e.y ≤ b.y_max := by
  intro e he
  rcases List.mem_map.mp he with ⟨e0, _, rfl⟩
  have hxs := @axisStep_fst_bounds b.x_min b.x_max e0.elasticity
    (e0.x + e0.vx * dt) e0.vx (le_of_lt hx)
  have hys := @axisStep_fst_bounds b.y_min b.y_max e0.elasticity
    (e0.y + e0.vy * dt) e0.vy (le_of_lt hy)
  exact ⟨hxs.1, hxs.2, hys.1, hys.2⟩

/-- Sample row starting far outside the bounds rectangle. -/
def tickSample : Entity :=
  { baseEntity with x := 250, y := -7, vx := 3, elasticity := 1/2 }

/-- Sample bounds rectangle 0 to 100 on both axes. -/
def tickBounds : Bounds := ⟨0, 100, 0, 100⟩

/-- C2 witness: the tick of the sample row ends inside the sample
bounds. -/
theorem update_positions_in_bounds_witness :
    tickBounds.x_min ≤ (update_positions_e tickBounds 1 tickSample).x ∧
    (update_positions_e tickBounds 1 tickSample).x ≤ tickBounds.x_max ∧
    tickBounds.y_min ≤ (update_positions_e tickBounds 1 tickSample).y ∧
    (update_positions_e tickBounds 1 tickSample).y ≤ tickBounds.y_max :=
  update_positions_in_bounds [tickSample] 1 tickBounds
    (by norm_num [tickBounds]) (by norm_num [tickBounds])
    (update_positions_e tickBounds 1 tickSample) (by simp [update_positions])

/-- Sample row sitting exactly on the right boundary with positive x
velocity. -/
def bounceSample : Entity :=
  { baseEntity with x := 100, y := 50, vx := 1, elasticity := 1/2 }

/-- C5 counterexample: for the row on the right boundary the x velocity
after one tick is -vx * elasticity * 0.98 = -0.49, not the claimed
-vx * elasticity = -0.5, because the uniform damping is applied on top of
the bounce. -/
theorem bounce_vx_not_undamped :
    ((update_positions [bounceSample] 1 tickBounds).getD 0 default).vx
      ≠ -(bounceSample.vx * bounceSample.elasticity) := by
  norm_num [update_positions, update_positions_e, axisStep, bounceSample, baseEntity,
    tickBounds]

/-- C5 amended: a row exactly at x_max with positive x velocity is
clamped to x_max after one tick and its x velocity becomes
-vx * elasticity * 0.98 (the bounce negation and scaling followed by the
uniform damping); and each velocity component of any row that bounced on
its axis leaves the tick no larger in magnitude than it entered, for an
elasticity between 0 and 1. -/
theorem bounce_at_xmax (df : List Entity) (dt : ℚ) (b : Bounds) (i : ℕ)
    (hi : i < df.length)
    (hx : (df.getD i default).x = b.x_max)
    (hv : 0 < (df.getD i default).vx)
    (hdt : 0 < dt)
    (hb : b.x_min < b.x_max)
    (hel0 : 0 ≤ (df.getD i default).elasticity)
    (hel1 : (df.getD i default).elasticity ≤ 1) :
    ((update_positions df dt b).getD i default).x = b.x_max ∧
    ((update_positions df dt b).getD i default).vx
      = -((df.getD i default).vx * (df.getD i default).elasticity) * (98/100) ∧
    |((update_positions df dt b).getD i default).vx| ≤ |(df.getD i default).vx| ∧
    (∀ (e : Entity) (dt' : ℚ) (b' : Bounds), 0 ≤ e.elasticity → e.elasticity ≤ 1 →
      bouncedX b' dt' e → |(update_positions_e b' dt' e).vx| ≤ |e.vx|) ∧
    (∀ (e : Entity) (dt' : ℚ) (b' : Bounds), 0 ≤ e.elasticity → e.elasticity ≤ 1 →
      bouncedY b' dt' e → |(update_positions_e b' dt' e).vy| ≤ |e.vy|) := by
  have hmap : (update_positions df dt b).getD i default
      = update_positions_e b dt (df.getD i default) := by
    have hlen : i < (update_positions df dt b).length := by
      simpa [update_positions] using hi
    rw [List.getD_eq_getElem _ _ hlen, List.getD_eq_getElem _ _ hi]
    simp [update_positions]
  set e := df.getD i default with he
  have hover : b.x_max < e.x + e.vx * dt := by
    have : 0 < e.vx * dt := mul_pos hv hdt
    rw [hx] at *
    linarith
  have hnotlow : ¬ e.x + e.vx * dt < b.x_min := by
    push_neg
    linarith
  have hxstep : axisStep b.x_min b.x_max e.elasticity (e.x + e.vx * dt) e.vx
      = (b.x_max, e.vx * (-e.elasticity)) := by
    simp only [axisStep, if_neg hnotlow, if_pos hover]
  refine ⟨?_, ?_, ?_, ?_, ?_⟩
  · rw [hmap]
    show (axisStep b.x_min b.x_max e.elasticity (e.x + e.vx * dt) e.vx).1 = b.x_max
    rw [hxstep]
  · rw [hmap]
    show (axisStep b.x_min b.x_max e.elasticity (e.x + e.vx * dt) e.vx).2 * (98/100)
      = -(e.vx * e.elasticity) * (98/100)
    rw [hxstep]
    ring
  · rw [hmap]
    exact update_e_vx_abs b dt e hel0 hel1
  · intro e' dt' b' h0 h1 _
    exact update_e_vx_abs b' dt' e' h0 h1
  · intro e' dt' b' h0 h1 _
    exact update_e_vy_abs b' dt' e' h0 h1

/-- C5 witness: the clamp and damped bounce of the amended claim at the
sample boundary row. -/
theorem bounce_at_xmax_witness :
    ((update_positions [bounceSample] 1 tickBounds).getD 0 default).x = tickBounds.x_max ∧
    ((update_positions [bounceSample] 1 tickBounds).getD 0 default).vx
      = -(([bounceSample].getD 0 default).vx * ([bounceSample].getD 0 default).elasticity)
          * (98/100) := by
  have h := bounce_at_xmax [bounceSample] 1 tickBounds 0 (by norm_num)
    (by norm_num [bounceSample, baseEntity, tickBounds])
    (by norm_num [bounceSample, baseEntity])
    (by norm_num) (by norm_num [tickBounds])
    (by norm_num [bounceSample, baseEntity])
    (by norm_num [bounceSample, baseEntity])
  exact ⟨h.1, h.2.1⟩

/-- Sample row starting to the left of the bounds rectangle. -/
def oobSample : Entity :=
  { baseEntity with x := -5, y := 50, vx := 1, vy := 1, elasticity := 1/2 }

/-- C6 counterexample: with timeDelta = 0 the row starting at x = -5 is
clamped to the left bound 0, so its position changes, and its x velocity
is flipped and scaled rather than only damped. -/
theorem tick_zero_dt_moves_oob_row :
    ((update_positions [oobSample] 0 tickBounds).getD 0 default).x ≠ oobSample.x ∧
    ((update_positions [oobSample] 0 tickBounds).getD 0 default).vx
      ≠ oobSample.vx * (98/100) := by
  constructor <;>
    norm_num [update_positions, update_positions_e, axisStep, oobSample, baseEntity,
      tickBounds]

/-- C6 amended: with timeDelta = 0 every row whose position already lies
inside the bounds rectangle keeps its position, and both its velocity
components are multiplied by the 0.98 damping factor. -/
theorem tick_zero_dt (df : List Entity) (b : Bounds)
    (h : ∀ e ∈ df, b.x_min ≤ e.x ∧ e.x ≤ b.x_max ∧ b.y_min ≤ e.y ∧ e.y ≤ b.y_max) :
    ∀ i : ℕ, i < df.length →
      ((update_positions df 0 b).getD i default).x = (df.getD i default).x ∧
      ((update_positions df 0 b).getD i default).y = (df.getD i default).y ∧
      ((update_positions df 0 b).getD i default).vx = (df.getD i default).vx * (98/100) ∧
      ((update_positions df 0 b).getD i default).vy = (df.getD i default).vy * (98/100) := by
  intro i hi
  have hmap : (update_positions df 0 b).getD i default
      = update_positions_e b 0 (df.getD i default) := by
    have hlen : i < (update_positions df 0 b).length := by
      simpa [update_positions] using hi
    rw [List.getD_eq_getElem _ _ hlen, List.getD_eq_getElem _ _ hi]
    simp [update_positions]
  set e := df.getD i default with he
  have hmem : e ∈ df := by
    rw [he, List.getD_eq_getElem _ _ hi]
    exact List.getElem_mem hi
  obtain ⟨hx1, hx2, hy1, hy2⟩ := h e hmem
  have hxpos : e.x + e.vx * 0 = e.x := by ring
  have hypos : e.y + e.vy * 0 = e.y := by ring
  have hxstep : axisStep b.x_min b.x_max e.elasticity (e.x + e.vx * 0) e.vx = (e.x, e.vx) := by
    rw [hxpos]
    simp only [axisStep, if_neg (not_lt.mpr hx1), if_neg (not_lt.mpr hx2)]
  have hystep : axisStep b.y_min b.y_max e.elasticity (e.y + e.vy * 0) e.vy = (e.y, e.vy) := by
    rw [hypos]
    simp only [axisStep, if_neg (not_lt.mpr hy1), if_neg (not_lt.mpr hy2)]
  rw [hmap]
  refine ⟨?_, ?_, ?_, ?_⟩
  · show (axisStep b.x_min b.x_max e.elasticity (e.x + e.vx * 0) e.vx).1 = e.x
    rw [hxstep]
  · show (axisStep b.y_min b.y_max e.elasticity (e.y + e.vy * 0) e.vy).1 = e.y
    rw [hystep]
  · show (axisStep b.x_min b.x_max e.elasticity (e.x + e.vx * 0) e.vx).2 * (98/100)
      = e.vx * (98/100)
    rw [hxstep]
  · show (axisStep b.y_min b.y_max e.elasticity (e.y + e.vy * 0) e.vy).2 * (98/100)
      = e.vy * (98/100)
    rw [hystep]

/-- C6 witness: the zero time-delta tick on the in-bounds sample boundary
row keeps its position and damps both velocity components. -/
theorem tick_zero_dt_witness :
    ((update_positions [bounceSample] 0 tickBounds).getD 0 default).x
      = ([bounceSample].getD 0 default).x ∧
    ((update_positions [bounceSample] 0 tickBounds).getD 0 default).vx
      = ([bounceSample].getD 0 default).vx * (98/100) := by
  have h := tick_zero_dt [bounceSample] tickBounds
    (by
      intro e he
      rw [List.mem_singleton] at he
      subst he
      norm_num [bounceSample, baseEntity, tickBounds]) 0 (by norm_num)
  exact ⟨h.1, h.2.2.1⟩

/-- C10: apply_attraction can change only the velocity columns; blanking
the velocities of input and output gives equal lists, so position, every
metric column, every other derived column, the ticker and the row order
all survive every mode and strength unchanged. -/
theorem attraction_frame (df : List Entity) (mode : String) (strength : ℚ) :
    (apply_attraction df mode strength).map eraseVel = df.map eraseVel := by
  unfold apply_attraction
  cases hmw : modeWeight mode with
  | none => rfl
  | some w =>
    show (attractionWith df w strength).map eraseVel = df.map eraseVel
    simp only [attractionWith]
    split
    · rw [List.map_map]
      have hcomp :
          (eraseVel ∘ fun p : Entity × ℚ =>
            { p.1 with
              vx := p.1.vx + (centroidX ((df.zip (normWeights df w)).filter
                (fun p => decide (7/10 < p.2))) - p.1.x) * strength * (1 - p.2)
              vy := p.1.vy + (centroidY ((df.zip (normWeights df w)).filter
                (fun p => decide (7/10 < p.2))) - p.1.y) * strength * (1 - p.2) })
            = eraseVel ∘ Prod.fst := rfl
      rw [hcomp, ← List.map_map]
      rw [List.map_fst_zip df (normWeights df w) (le_of_eq (normWeights_length df w).symm)]
    · rfl

/-- C7: when every row has the same value of the selected weighting
metric, the normalization denominator is the non-zero epsilon, every
normalized weight is the same constant, and the attractor set is the
whole collection or empty according to whether that constant exceeds 0.7
(here the constant is 0, so the set is empty). -/
theorem attraction_equal_weights (df : List Entity) (mode : String) (c : ℚ)
    (_hm : recognized mode) (hc : ∀ e ∈ df, theWeight mode e = c) :
    seriesMax (df.map (theWeight mode)) - seriesMin (df.map (theWeight mode)) + 1/1000 ≠ 0 ∧
    ∃ c' : ℚ, normWeights df (theWeight mode) = List.replicate df.length c' ∧
      (7/10 < c' →
        attractorPairs df (theWeight mode) = df.zip (normWeights df (theWeight mode))) ∧
      (¬ 7/10 < c' → attractorPairs df (theWeight mode) = []) := by
  have hall : ∀ v ∈ df.map (theWeight mode), v = c := by
    intro v hv
    rcases List.mem_map.mp hv with ⟨e, he, rfl⟩
    exact hc e he
  have hzero : ∀ b ∈ normWeights df (theWeight mode), b = 0 := by
    intro b hb
    rcases List.mem_map.mp hb with ⟨v, hv, rfl⟩
    rw [hall v hv]
    cases df with
    | nil => cases hv
    | cons d ds =>
      have hmin : seriesMin ((d :: ds).map (theWeight mode)) = c :=
        hall _ (seriesMin_mem (by simp))
      rw [hmin, sub_self, zero_div]
  constructor
  · cases df with
    | nil =>
      show seriesMax [] - seriesMin [] + 1/1000 ≠ 0
      norm_num [seriesMin, seriesMax]
    | cons d ds =>
      have hmin : seriesMin ((d :: ds).map (theWeight mode)) = c :=
        hall _ (seriesMin_mem (by simp))
      have hmax : seriesMax ((d :: ds).map (theWeight mode)) = c :=
        hall _ (seriesMax_mem (by simp))
      rw [hmin, hmax]
      norm_num
  · refine ⟨0, ?_, ?_, fun _ => ?_⟩
    · have := List.eq_replicate_of_mem hzero
      rwa [normWeights_length df (theWeight mode)] at this
    · intro habs
      exact absurd habs (by norm_num)
    · unfold attractorPairs
      rw [List.filter_eq_nil_iff]
      intro p hp
      have hp2 : p.2 ∈ normWeights df (theWeight mode) := by
        rcases p with ⟨p1, p2⟩
        exact (List.of_mem_zip hp).2
      rw [hzero p.2 hp2]
      norm_num

/-- Sample two-row collection with equal Rule-of-40 scores. -/
def eqDF : List Entity :=
  [{ baseEntity with rule_of_40 := 5 }, { baseEntity with rule_of_40 := 5 }]

/-- C7 witness: the equal-weights conclusion at the concrete two-row
collection with equal Rule-of-40 scores under the value mode. -/
theorem attraction_equal_weights_witness :
    seriesMax (eqDF.map (theWeight "value")) - seriesMin (eqDF.map (theWeight "value"))
        + 1/1000 ≠ 0 ∧
    ∃ c' : ℚ, normWeights eqDF (theWeight "value") = List.replicate eqDF.length c' ∧
      (7/10 < c' →
        attractorPairs eqDF (theWeight "value") = eqDF.zip (normWeights eqDF (theWeight "value"))) ∧
      (¬ 7/10 < c' → attractorPairs eqDF (theWeight "value") = []) :=
  attraction_equal_weights eqDF "value" 5 (Or.inl rfl)
    (by
      intro e he
      rcases List.mem_cons.mp he with rfl | he
      · rfl
      · rcases List.mem_cons.mp he with rfl | he
        · rfl
        · cases he)

/-- The attraction body adds exactly the centroid pull to each velocity
when the attractor set is non-empty, and returns the input unchanged
when it is empty. -/
lemma attractionWith_spec (df : List Entity) (w : Entity → ℚ) (s : ℚ) :
    (attractorPairs df w ≠ [] →
      (attractionWith df w s).length = df.length ∧
      ∀ i : ℕ, i < df.length →
        ((attractionWith df w s).getD i default).vx
          = (df.getD i default).vx
            + (centroidX (attractorPairs df w) - (df.getD i default).x) * s
              * (1 - (normWeights df w).getD i 0) ∧
        ((attractionWith df w s).getD i default).vy
          = (df.getD i default).vy
            + (centroidY (attractorPairs df w) - (df.getD i default).y) * s
              * (1 - (normWeights df w).getD i 0)) ∧
    (attractorPairs df w = [] → attractionWith df w s = df) := by
  have hws : (normWeights df w).length = df.length := normWeights_length df w
  have hzip : (df.zip (normWeights df w)).length = df.length := by
    rw [List.length_zip, hws, min_self]
  constructor
  · intro hne
    have hpos : 0 < ((df.zip (normWeights df w)).filter
        (fun p => decide (7/10 < p.2))).length :=
      List.length_pos.mpr hne
    have hout : attractionWith df w s
        = (df.zip (normWeights df w)).map (fun p =>
            { p.1 with
              vx := p.1.vx + (centroidX (attractorPairs df w) - p.1.x) * s * (1 - p.2)
              vy := p.1.vy + (centroidY (attractorPairs df w) - p.1.y) * s * (1 - p.2) }) := by
      simp only [attractionWith]
      rw [if_pos hpos]
      rfl
    constructor
    · rw [hout, List.length_map, hzip]
    · intro i hi
      have hmi : i < ((df.zip (normWeights df w)).map (fun p =>
          { p.1 with
            vx := p.1.vx + (centroidX (attractorPairs df w) - p.1.x) * s * (1 - p.2)
            vy := p.1.vy + (centroidY (attractorPairs df w) - p.1.y) * s * (1 - p.2) })).length := by
        rw [List.length_map, hzip]
        exact hi
      have hzi : i < (df.zip (normWeights df w)).length := by
        rw [hzip]
        exact hi
      rw [hout, List.getD_eq_getElem _ _ hmi, List.getD_eq_getElem df _ hi,
        List.getD_eq_getElem _ _ (hws ▸ hi), List.getElem_map, List.getElem_zip]
      exact ⟨rfl, rfl⟩
  · intro hempty
    have hzero : ((df.zip (normWeights df w)).filter
        (fun p => decide (7/10 < p.2))).length = 0 := by
      have : attractorPairs df w = [] := hempty
      unfold attractorPairs at this
      rw [this]
      rfl
    simp only [attractionWith]
    rw [if_neg (by rw [hzero]; exact lt_irrefl 0)]

/-- C1: under a recognized mode, when the attractor set of rows whose
min-max-normalized weight exceeds 0.7 is non-empty, apply_attraction
adds exactly (centroid - position) * strength * (1 - weight) to each
velocity component, with the centroid weight-averaged over the attractor
set only; when the attractor set is empty the collection is returned
unchanged. -/
theorem attraction_centroid_formula (df : List Entity) (mode : String) (s : ℚ)
    (hm : recognized mode) :
    (attractorPairs df (theWeight mode) ≠ [] →
      (apply_attraction df mode s).length = df.length ∧
      ∀ i : ℕ, i < df.length →
        ((apply_attraction df mode s).getD i default).vx
          = (df.getD i default).vx
            + (centroidX (attractorPairs df (theWeight mode)) - (df.getD i default).x) * s
              * (1 - (normWeights df (theWeight mode)).getD i 0) ∧
        ((apply_attraction df mode s).getD i default).vy
          = (df.getD i default).vy
            + (centroidY (attractorPairs df (theWeight mode)) - (df.getD i default).y) * s
              * (1 - (normWeights df (theWeight mode)).getD i 0)) ∧
    (attractorPairs df (theWeight mode) = [] → apply_attraction df mode s = df) := by
  have hred : apply_attraction df mode s = attractionWith df (theWeight mode) s := by
    rcases hm with h | h | h | h <;> subst h <;> rfl
  rw [hred]
  exact attractionWith_spec df (theWeight mode) s

/-- C1 witness: the first sample row, which is not an attractor, gets
exactly the centroid pull added to both velocity components. -/
theorem attraction_centroid_formula_witness :
    ((apply_attraction sampleDF "value" (1/10)).getD 0 default).vx
      = (sampleDF.getD 0 default).vx
        + (centroidX (attractorPairs sampleDF (theWeight "value")) - (sampleDF.getD 0 default).x)
          * (1/10) * (1 - (normWeights sampleDF (theWeight "value")).getD 0 0) ∧
    ((apply_attraction sampleDF "value" (1/10)).getD 0 default).vy
      = (sampleDF.getD 0 default).vy
        + (centroidY (attractorPairs sampleDF (theWeight "value")) - (sampleDF.getD 0 default).y)
          * (1/10) * (1 - (normWeights sampleDF (theWeight "value")).getD 0 0) := by
  have h := attraction_centroid_formula sampleDF "value" (1/10) (Or.inl rfl)
  have hne : attractorPairs sampleDF (theWeight "value") ≠ [] := by
    norm_num [attractorPairs, normWeights, theWeight, modeWeight, sampleDF, sampleA,
      sampleB, baseEntity, seriesMin, seriesMax, List.filter]
  exact (h.1 hne).2 0 (by norm_num [sampleDF])

/-- C4 counterexample: in a collection holding a market cap of -2, the
size computation for the entity with positive market cap 5 hits the
math.log10 domain error, because min(all_market_caps) + 1 = -1 is not a
valid logarithm argument; so size computation is not error-free on every
collection containing negative market caps. -/
theorem bubble_size_domain_error :
    get_bubble_size (fun v => v) 5 [5, -2] = none := by
  norm_num [get_bubble_size, mlog10, seriesMin, seriesMax, min_def]

/-- C4 amended: over any collection whose market caps all exceed -1 (so
every logarithm argument stays positive; in particular any collection of
non-negative caps) size computation never errors, a non-positive market
cap yields exactly size 5, a positive market cap in the collection yields
a size between 10 and 60 for any monotone logarithm value function, and
pulse speed computation never errors, yielding exactly 1.0 on any
non-positive volume. -/
theorem size_pulse_safety (L : ℚ → ℚ) (hL : ∀ a b : ℚ, 0 < a → a ≤ b → L a ≤ L b)
    (caps : List ℚ) (hcaps : ∀ v ∈ caps, -1 < v) (cap : ℚ) (hmem : cap ∈ caps)
    (vol : ℚ) (vols : List ℚ) :
    (∃ sz, get_bubble_size L cap caps = some sz ∧
      (cap ≤ 0 → sz = 5) ∧ (0 < cap → 10 ≤ sz ∧ sz ≤ 60)) ∧
    (vol ≤ 0 → get_pulse_speed vol vols = 1) := by
  constructor
  · by_cases hc : cap ≤ 0
    · refine ⟨5, ?_, fun _ => rfl, fun h => absurd h (not_lt.mpr hc)⟩
      unfold get_bubble_size
      rw [if_pos hc]
    · push_neg at hc
      cases caps with
      | nil => cases hmem
      | cons v vs =>
        have hmin1 : 0 < seriesMin (v :: vs) + 1 := by
          have := hcaps _ (seriesMin_mem (show (v :: vs : List ℚ) ≠ [] by simp))
          linarith
        have hmax1 : 0 < seriesMax (v :: vs) + 1 := by
          have := hcaps _ (seriesMax_mem (show (v :: vs : List ℚ) ≠ [] by simp))
          linarith
        have hcap1 : 0 < cap + 1 := by linarith
        have h1 : mlog10 L (cap + 1) = some (L (cap + 1)) := if_pos hcap1
        have h2 : mlog10 L (seriesMin (v :: vs) + 1) = some (L (seriesMin (v :: vs) + 1)) :=
          if_pos hmin1
        have h3 : mlog10 L (seriesMax (v :: vs) + 1) = some (L (seriesMax (v :: vs) + 1)) :=
          if_pos hmax1
        refine ⟨normalize (L (cap + 1)) (L (seriesMin (v :: vs) + 1))
          (L (seriesMax (v :: vs) + 1)) 10 60, ?_, fun h => absurd hc (not_lt.mpr h), fun _ => ?_⟩
        · unfold get_bubble_size
          rw [if_neg (not_le.mpr hc), h1]
          dsimp only
          rw [h2, h3]
        · have hlo : L (seriesMin (v :: vs) + 1) ≤ L (cap + 1) :=
            hL _ _ hmin1 (by have := seriesMin_le_mem hmem; linarith)
          have hhi : L (cap + 1) ≤ L (seriesMax (v :: vs) + 1) :=
            hL _ _ hcap1 (by have := seriesMax_ge_mem hmem; linarith)
          exact normalize_bounds hlo hhi (by norm_num)
  · intro hv
    unfold get_pulse_speed
    rw [if_pos (Or.inr hv)]

/-- C4 witness: the amended safety conclusion at the concrete collection
of caps 5 and 2, the member cap 5, the identity logarithm values, and a
negative volume. -/
theorem size_pulse_safety_witness :
    (∃ sz, get_bubble_size (fun v => v) 5 [5, 2] = some sz ∧
      ((5:ℚ) ≤ 0 → sz = 5) ∧ ((0:ℚ) < 5 → 10 ≤ sz ∧ sz ≤ 60)) ∧
    ((-3:ℚ) ≤ 0 → get_pulse_speed (-3) [1] = 1) :=
  size_pulse_safety (fun v => v) (fun _ _ _ h => h) [5, 2]
    (by
      intro v hv
      rcases List.mem_cons.mp hv with rfl | hv
      · norm_num
      · rcases List.mem_cons.mp hv with rfl | hv
        · norm_num
        · cases hv)
    5 (List.mem_cons_self 5 [2]) (-3) [1]

end StockPhysics
